import Mathlib

/-!
Verification of the CFI parsing and ordering engine of bookbits
(src/bookbits.py), shallowly embedded: strings are lists of characters,
Python exceptions are an explicit error monad, machine integers are
unbounded in both Python and the model.
-/

namespace Bookbits

/-- Python exception kinds raised by the modelled code paths. -/
inductive PyErr where
  | indexError
  | valueError
  | typeError
  deriving DecidableEq

deriving instance DecidableEq for Except

/-- ASCII whitespace, as recognised by Python's str.strip() and by the regex
class \s on the ASCII range (the program's inputs are ASCII). -/
def pyIsSpace (c : Char) : Bool :=
  c = ' ' || c = '\t' || c = '\n' || c = '\r' || c = '\x0b' || c = '\x0c'

/-- Python str.split(sep) for a single-character separator: splitting the
empty string gives [""], separators at the ends give empty pieces. -/
def splitOnChar (sep : Char) : List Char → List (List Char)
  | [] => [[]]
  | c :: rest =>
      if c = sep then [] :: splitOnChar sep rest
      else
        match splitOnChar sep rest with
        | [] => [[c]]
        | g :: gs => (c :: g) :: gs

/-- Value of a run of ASCII digits, as computed by Python's int() on it. -/
def digitsToNat (ds : List Char) : Nat :=
  ds.foldl (fun acc c => 10 * acc + (c.toNat - '0'.toNat)) 0

/-- Scanner state for the regex findall('(/\d+)', path): outside any
candidate match, just after a '/', or inside a digit run with its value. -/
inductive ScanState where
  | plain
  | slash
  | run (n : Nat)

/-- Left-to-right non-overlapping maximal matching of the regex /\d+ :
a '/' opens a candidate, a digit run extends it, and the match is emitted
when the run ends (a '/' immediately opens the next candidate, matching the
regex engine resuming right after the matched text). -/
def stepsAux : ScanState → List Char → List Int
  | .plain, [] => []
  | .slash, [] => []
  | .run n, [] => [(n : Int)]
  | .plain, c :: rest =>
      if c = '/' then stepsAux .slash rest else stepsAux .plain rest
  | .slash, c :: rest =>
      if c.isDigit then stepsAux (.run (c.toNat - '0'.toNat)) rest
      else if c = '/' then stepsAux .slash rest
      else stepsAux .plain rest
  | .run n, c :: rest =>
      if c.isDigit then stepsAux (.run (10 * n + (c.toNat - '0'.toNat))) rest
      else if c = '/' then (n : Int) :: stepsAux .slash rest
      else (n : Int) :: stepsAux .plain rest

/-- Model of [int(x[1:]) for x in re.findall('(/\d+)', path)] : the integers
of the '/'-and-digits runs of path, in left-to-right order. -/
def findSteps (path : List Char) : List Int :=
  stepsAux .plain path

/-- Python int(str): optional surrounding whitespace, an optional sign, then
one or more digits, else ValueError. (Underscore separators and non-ASCII
digits accepted by Python do not occur in this program's inputs.) -/
def pyInt (s : List Char) : Except PyErr Int :=
  let t := (((s.dropWhile fun c => pyIsSpace c).reverse.dropWhile
      fun c => pyIsSpace c)).reverse
  match t with
  | '-' :: ds =>
      if !ds.isEmpty && ds.all Char.isDigit then .ok (-(digitsToNat ds : Int))
      else .error .valueError
  | '+' :: ds =>
      if !ds.isEmpty && ds.all Char.isDigit then .ok (digitsToNat ds)
      else .error .valueError
  | ds =>
      if !ds.isEmpty && ds.all Char.isDigit then .ok (digitsToNat ds)
      else .error .valueError

/-- Model of parse_epubcfi (src/bookbits.py lines 76-95). A missing (None)
location returns []. raw[8:-1] is the 8-character prefix and 1-character
suffix slice; parts[1] raises IndexError when the sliced body contains no
comma, and int() raises ValueError when the text after the first colon of
the recombined first endpoint is not an integer literal. -/
def parse_epubcfi : Option (List Char) → Except PyErr (List Int)
  | none => .ok []
  | some raw =>
      match splitOnChar ',' ((raw.drop 8).dropLast) with
      | p0 :: p1 :: _ =>
          let cfistart := p0 ++ p1
          match splitOnChar ':' cfistart with
          | [] => .error .indexError
          | path :: rest =>
              let offsets := findSteps path
              match rest with
              | [] => .ok offsets
              | off :: _ =>
                  match pyInt off with
                  | .ok n => .ok (offsets ++ [n])
                  | .error e => .error e
      | _ => .error .indexError

/-- Model of epubcfi_compare (src/bookbits.py lines 97-105): the first
differing entry decides by subtraction, otherwise the length difference. -/
def epubcfi_compare : List Int → List Int → Int
  | [], ys => -(ys.length : Int)
  | _ :: xs, [] => (xs.length : Int) + 1
  | x :: xs, y :: ys => if x = y then epubcfi_compare xs ys else x - y

theorem epubcfi_compare_nil_right (v : List Int) :
    epubcfi_compare v [] = (v.length : Int) := by
  cases v <;> simp [epubcfi_compare]

theorem epubcfi_compare_neg : ∀ a b : List Int,
    epubcfi_compare a b = -epubcfi_compare b a
  | [], [] => by simp [epubcfi_compare]
  | [], _ :: _ => by simp [epubcfi_compare]
  | _ :: _, [] => by simp [epubcfi_compare]
  | x :: xs, y :: ys => by
      simp only [epubcfi_compare]
      by_cases h : x = y
      · subst h
        simp [epubcfi_compare_neg xs ys]
      · have h2 : ¬(y = x) := fun hh => h hh.symm
        simp only [if_neg h, if_neg h2]
        omega

theorem epubcfi_compare_self : ∀ a : List Int, epubcfi_compare a a = 0
  | [] => by simp [epubcfi_compare]
  | _ :: xs => by simp [epubcfi_compare, epubcfi_compare_self xs]

theorem epubcfi_compare_eq_zero_iff : ∀ a b : List Int,
    epubcfi_compare a b = 0 ↔ a = b
  | [], [] => by simp [epubcfi_compare]
  | [], _ :: _ => by simp [epubcfi_compare]; omega
  | x :: xs, [] => by simp [epubcfi_compare]; omega
  | x :: xs, y :: ys => by
      simp only [epubcfi_compare, List.cons.injEq]
      by_cases h : x = y
      · subst h
        simp [epubcfi_compare_eq_zero_iff xs ys]
      · rw [if_neg h]
        constructor
        · intro h0
          exact absurd (show x = y by omega) h
        · rintro ⟨h0, -⟩
          exact absurd h0 h

theorem epubcfi_compare_trans : ∀ a b c : List Int,
    epubcfi_compare a b < 0 → epubcfi_compare b c < 0 → epubcfi_compare a c < 0
  | a, [], _ => fun h1 _ => absurd h1 (by rw [epubcfi_compare_nil_right]; omega)
  | _, _ :: ys, [] => fun _ h2 => absurd h2 (by simp [epubcfi_compare]; omega)
  | [], _ :: _, _ :: zs => fun _ _ => by simp [epubcfi_compare]; omega
  | x :: xs, y :: ys, z :: zs => fun h1 h2 => by
      simp only [epubcfi_compare] at h1 h2 ⊢
      by_cases hxy : x = y <;> by_cases hyz : y = z
      · subst hxy; subst hyz
        simp only [if_pos rfl] at h1 h2 ⊢
        exact epubcfi_compare_trans xs ys zs h1 h2
      · subst hxy
        simp only [if_pos rfl, if_neg hyz] at h1 h2
        rw [if_neg (by omega : ¬ x = z)]
        omega
      · subst hyz
        simp only [if_neg hxy, if_pos rfl] at h1 h2
        rw [if_neg hxy]
        omega
      · simp only [if_neg hxy, if_neg hyz] at h1 h2
        rw [if_neg (by omega : ¬ x = z)]
        omega

theorem epubcfi_compare_le_trans (u v w : List Int)
    (h1 : epubcfi_compare u v ≤ 0) (h2 : epubcfi_compare v w ≤ 0) :
    epubcfi_compare u w ≤ 0 := by
  rcases lt_or_eq_of_le h1 with h1' | h1'
  · rcases lt_or_eq_of_le h2 with h2' | h2'
    · exact le_of_lt (epubcfi_compare_trans u v w h1' h2')
    · rw [← (epubcfi_compare_eq_zero_iff v w).mp h2']
      exact h1
  · rw [(epubcfi_compare_eq_zero_iff u v).mp h1']
    exact h2

/-- C1: the comparator epubcfi_compare is a strict total order on integer
position vectors: the sign of compare(a,b) is the opposite of the sign of
compare(b,a); strict Less is transitive; compare(a,b) is Less (negative)
exactly when compare(b,a) is Greater (positive); and compare(a,a) is Equal
(zero). -/
theorem epubcfi_compare_strict_total_order :
    (∀ a b : List Int, (epubcfi_compare a b).sign = -(epubcfi_compare b a).sign) ∧
    (∀ a b c : List Int, epubcfi_compare a b < 0 → epubcfi_compare b c < 0 →
      epubcfi_compare a c < 0) ∧
    (∀ a b : List Int, epubcfi_compare a b < 0 ↔ 0 < epubcfi_compare b a) ∧
    (∀ a : List Int, epubcfi_compare a a = 0) := by
  refine ⟨?_, epubcfi_compare_trans, ?_, epubcfi_compare_self⟩
  · intro a b
    rw [epubcfi_compare_neg a b, Int.sign_neg]
  · intro a b
    rw [epubcfi_compare_neg a b]
    omega

/-- Witness for C1 at concrete vectors, discharging the transitivity
hypotheses at [1], [2], [3]. -/
theorem epubcfi_compare_strict_total_order_witness :
    epubcfi_compare [1] [3] < 0 :=
  epubcfi_compare_strict_total_order.2.1 [1] [2] [3] (by decide) (by decide)

/-- C2: prefix tie-break: a vector compares Less than any proper extension
of itself, so a strict prefix sorts before the vector extending it. -/
theorem epubcfi_compare_prefix_lt :
    ∀ (v : List Int) (x : Int) (rest : List Int),
      epubcfi_compare v (v ++ x :: rest) < 0
  | [], x, rest => by simp [epubcfi_compare]; omega
  | y :: v, x, rest => by
      simp only [List.cons_append, epubcfi_compare, if_pos rfl]
      exact epubcfi_compare_prefix_lt v x rest

/-- C3: the tokenizer on the concrete example from the spec: the shared
segment is concatenated with the first range endpoint, the indirection
marker is ignored, the path steps come in left-to-right order, and the
trailing character offset is appended last. -/
theorem parse_epubcfi_concrete_example :
    parse_epubcfi
        (some ("epubcfi(/6/16[chapter1]!/4,/174/2/1:0,/180/1:222)".toList)) =
      .ok [6, 16, 4, 174, 2, 1, 0] := by
  decide

/-- Python str.strip() on an ASCII string: surrounding whitespace removed. -/
def pyStrip (s : List Char) : List Char :=
  (((s.dropWhile fun c => pyIsSpace c).reverse.dropWhile
      fun c => pyIsSpace c)).reverse

/-- Model of the closure stripspaces = lambda x : x.strip() if x else x used
by the constructors: None and the empty string pass through unchanged,
any other string is stripped. -/
def stripspaces : Option (List Char) → Option (List Char)
  | none => none
  | some s => if s.isEmpty then some s else some (pyStrip s)

/-- Model of the Annotation object (src/bookbits.py lines 138-159): one
record of the per-book groups. Timestamps are carried as integers. -/
structure Annotation where
  location : Option (List Char)
  selected_text : Option (List Char)
  represent_text : Option (List Char)
  chapter : Option (List Char)
  style : Option (List Char)
  note : Option (List Char)
  modified_date : Int
  deriving DecidableEq

/-- Model of Annotation.__init__ (lines 140-156): a ValueError when both
text fields are None, otherwise the three textual fields are stripped and
everything else is stored as given. -/
def annotationInit (location selected_text note represent_text chapter style :
    Option (List Char)) (modified_date : Int) : Except PyErr Annotation :=
  if selected_text = none ∧ note = none then .error .valueError
  else .ok { location := location
             selected_text := stripspaces selected_text
             represent_text := stripspaces represent_text
             chapter := chapter
             style := style
             note := stripspaces note
             modified_date := modified_date }

/-- Model of create_annotation (lines 161-177): the same validation, then
the constructor is called on already-stripped text fields. -/
def create_annotation (location selected_text note represent_text chapter style :
    Option (List Char)) (modified_date : Int) : Except PyErr Annotation :=
  if selected_text = none ∧ note = none then .error .valueError
  else annotationInit location (stripspaces selected_text) (stripspaces note)
      (stripspaces represent_text) chapter style modified_date

/-- One raw database row as consumed by populate_annotations. The SQL text
values are modelled as optional strings (str() on a string is the identity)
and the modification date as an integer epoch offset. -/
structure RawRecord where
  asset_id : Option (List Char)
  location : Option (List Char)
  selected_text : Option (List Char)
  note : Option (List Char)
  represent_text : Option (List Char)
  chapter : Option (List Char)
  style : Option (List Char)
  modified_date : Int
  deriving DecidableEq

/-- Python truthiness conversion str(v) if v else None on an optional
string: None and the empty string become None. -/
def truthyOpt : Option (List Char) → Option (List Char)
  | none => none
  | some s => if s.isEmpty then none else some s

def NS_TIME_INTERVAL_SINCE_1970 : Int := 978307200

/-- Appending an annotation to its asset's group, keeping dict insertion
order (anno_group[asset_id].append(anno) after creating the key slot). -/
def insertAppend (g : List (List Char × List Annotation)) (k : List Char)
    (a : Annotation) : List (List Char × List Annotation) :=
  match g with
  | [] => [(k, [a])]
  | (k', l) :: rest =>
      if k' = k then (k', l ++ [a]) :: rest
      else (k', l) :: insertAppend rest k a

/-- The record loop of populate_annotations (lines 188-212): each record is
converted by truthiness, an annotation is created (an escaping ValueError
aborts the whole call), and the result is appended to its book's group. -/
def buildGroups : List RawRecord → List (List Char × List Annotation) →
    Except PyErr (List (List Char × List Annotation))
  | [], g => .ok g
  | r :: rest, g =>
      match create_annotation (truthyOpt r.location) (truthyOpt r.selected_text)
          (truthyOpt r.note) (truthyOpt r.represent_text) (truthyOpt r.chapter)
          (truthyOpt r.style) (NS_TIME_INTERVAL_SINCE_1970 + r.modified_date) with
      | .error e => .error e
      | .ok a => buildGroups rest (insertAppend g (r.asset_id.getD []) a)

/-- Model of populate_annotations (lines 179-214): keep the records with an
asset id and at least one non-None text field, then build the groups. -/
def populate_annotations (annos : List RawRecord) :
    Except PyErr (List (List Char × List Annotation)) :=
  buildGroups
    (annos.filter fun r =>
      r.asset_id.isSome && (r.selected_text.isSome || r.note.isSome))
    []

/-- The position vector the comparator derives for an annotation. In the
code query_compare_no_asset_id calls parse_epubcfi directly and any parse
exception propagates out of the sort; the theorems about sorting therefore
assume every location parses, under which the default [] of this total
version is never reached for string locations. -/
def pvec (a : Annotation) : List Int :=
  ((parse_epubcfi a.location).toOption).getD []

/-- query_compare_no_asset_id (lines 107-111) on two annotations. -/
def annCmp (x y : Annotation) : Int :=
  epubcfi_compare (pvec x) (pvec y)

/-- The ordering handed to the sort by cmp_to_key: K.__lt__/__le__ compare
the three-way result against zero. -/
def annLE (x y : Annotation) : Prop :=
  annCmp x y ≤ 0

instance : DecidableRel annLE := fun x y =>
  inferInstanceAs (Decidable (annCmp x y ≤ 0))

instance : IsTotal Annotation annLE where
  total x y := by
    unfold annLE annCmp
    rw [epubcfi_compare_neg (pvec x) (pvec y)]
    omega

instance : IsTrans Annotation annLE where
  trans x y z h1 h2 := epubcfi_compare_le_trans (pvec x) (pvec y) (pvec z) h1 h2

/-- Python's annotations.sort(key=cmp_to_key(query_compare_no_asset_id)) is
the stable sort by the comparator; a stable sort for a total preorder is
unique, so it is modelled by insertion sort. -/
def sortAnnotations (l : List Annotation) : List Annotation :=
  List.insertionSort annLE l

/-- One lazy scan for the group of the regex \[(.*?)\] : the characters up
to the first ']' of the remainder; no match at end of input or at a newline
(the regex '.' does not match a newline). -/
def scanInner : List Char → Option (List Char)
  | [] => none
  | c :: rest =>
      if c = ']' then some []
      else if c = '\n' then none
      else (scanInner rest).map fun g => c :: g

/-- re.search(r'\[(.*?)\]', s): group 1 of the leftmost match; when the
match attempt at a '[' fails, the search resumes at the next position. -/
def firstBracket : List Char → Option (List Char)
  | [] => none
  | c :: rest =>
      if c = '[' then
        match scanInner rest with
        | some inner => some inner
        | none => firstBracket rest
      else firstBracket rest

/-- The regex class \w on the program's ASCII inputs. -/
def isWord (c : Char) : Bool :=
  c.isAlphanum || c = '_'

/-- re.sub over a two-character pattern (p1)(p2) with replacement giving
group 1, a space, group 2: scan left to right, and resume right after a
matched pair (non-overlapping matches). -/
def subPair (p1 p2 : Char → Bool) : List Char → List Char
  | [] => []
  | [a] => [a]
  | a :: b :: rest =>
      if p1 a && p2 b then a :: ' ' :: b :: subPair p1 p2 rest
      else a :: subPair p1 p2 (b :: rest)

/-- Python str.capitalize(): first character uppercased, the rest
lowercased. -/
def pyCapitalize : List Char → List Char
  | [] => []
  | c :: rest => c.toUpper :: rest.map Char.toLower

/-- re.sub(r'\.[^.]*$', '', s): drop everything from the last '.' on. -/
def stripLastDot (s : List Char) : List Char :=
  if '.' ∈ s then (((s.reverse.dropWhile fun c => c ≠ '.').drop 1)).reverse
  else s

/-- Model of extract_chapter_title (src/bookbits.py lines 256-266): the
first bracketed label, the three boundary-space substitutions in source
order, capitalization, and the trailing dot-suffix strip; None when the
location has no bracketed label. -/
def extract_chapter_title (location : List Char) : Option (List Char) :=
  match firstBracket location with
  | none => none
  | some extracted =>
      let e1 := subPair isWord Char.isDigit extracted
      let e2 := subPair (fun c => !c.isDigit) Char.isDigit e1
      let e3 := subPair Char.isDigit (fun c => !c.isDigit) e2
      some (stripLastDot (pyCapitalize e3))

/-- re.sub(r'\s\x7b2,\x7d', ' ', s): each maximal run of two or more
whitespace characters becomes a single space. -/
def subMultiSpace : List Char → List Char
  | [] => []
  | c :: rest =>
      if pyIsSpace c then
        let run := rest.takeWhile fun d => pyIsSpace d
        if run.isEmpty then c :: subMultiSpace rest
        else ' ' :: subMultiSpace (rest.drop run.length)
      else c :: subMultiSpace rest
termination_by l => l.length
decreasing_by
  · simp
  · simp [List.length_drop]
    omega
  · simp

/-- Python str.replace of a newline by a newline, '>' and a space. -/
def replaceNewlines : List Char → List Char
  | [] => []
  | c :: rest =>
      if c = '\n' then '\n' :: '>' :: ' ' :: replaceNewlines rest
      else c :: replaceNewlines rest

/-- Python str() of an optional string inside an f-string: None prints as
the four characters None. -/
def fmtOpt : Option (List Char) → List Char
  | none => "None".toList
  | some s => s

/-- The export loop of content (lines 271-285). current_chapter starts as
the empty string and afterwards holds the last extracted title, which may
be None; calling extract_chapter_title on a missing location raises a
TypeError inside re.search. -/
def buildMd (export_titles : List Char) :
    List Annotation → Option (List Char) → List Char → Except PyErr (List Char)
  | [], _, md => .ok md
  | anno :: rest, current_chapter, md =>
      match anno.selected_text with
      | some st =>
          let step : Except PyErr (List Char × Option (List Char)) :=
            if export_titles = "yes".toList then
              match anno.location with
              | none => .error .typeError
              | some loc =>
                  let extracted := extract_chapter_title loc
                  let md' :=
                    if extracted ≠ current_chapter then
                      if extracted ≠ some [] then
                        md ++ ('#' :: ' ' :: fmtOpt extracted) ++ ['\n']
                      else md
                    else md
                  .ok (md', extracted)
            else .ok (md, current_chapter)
          match step with
          | .error e => .error e
          | .ok (md1, cc1) =>
              let blockquote := '>' :: ' ' :: replaceNewlines (subMultiSpace st)
              let md2 := md1 ++ blockquote ++ ('\n' :: '\n' :: [])
              let md3 :=
                match anno.note with
                | none => md2
                | some n => md2 ++ n ++ ('\n' :: '\n' :: [])
              buildMd export_titles rest cc1 md3
      | none =>
          let md3 :=
            match anno.note with
            | none => md
            | some n => md ++ n ++ ('\n' :: '\n' :: [])
          buildMd export_titles rest current_chapter md3

/-- Model of content (lines 268-286). Python's annotations.sort is an
in-place mutation of the caller's list; the model returns the generated
markdown together with the final value of the caller's list. -/
def content (annotations : List Annotation) (export_titles : List Char) :
    Except PyErr (List Char) × List Annotation :=
  let sorted := sortAnnotations annotations
  (buildMd export_titles sorted (some []) [], sorted)

theorem scanInner_some : ∀ (rest inner : List Char),
    scanInner rest = some inner → ∃ post, rest = inner ++ ']' :: post
  | [], inner => by simp [scanInner]
  | c :: r, inner => by
      intro h
      unfold scanInner at h
      by_cases h1 : c = ']'
      · rw [if_pos h1] at h
        obtain rfl := Option.some.inj h
        exact ⟨r, by rw [h1]; rfl⟩
      · rw [if_neg h1] at h
        by_cases h2 : c = '\n'
        · rw [if_pos h2] at h
          exact absurd h (by simp)
        · rw [if_neg h2] at h
          cases hs : scanInner r with
          | none =>
              rw [hs] at h
              exact absurd h (by simp)
          | some g =>
              rw [hs] at h
              have hgi : c :: g = inner := Option.some.inj h
              obtain ⟨post, hp⟩ := scanInner_some r g hs
              exact ⟨post, by rw [← hgi, hp]; rfl⟩

theorem firstBracket_some : ∀ (loc inner : List Char),
    firstBracket loc = some inner →
    ∃ pre post, loc = pre ++ '[' :: (inner ++ ']' :: post)
  | [], inner => by simp [firstBracket]
  | c :: rest, inner => by
      intro h
      unfold firstBracket at h
      by_cases h1 : c = '['
      · rw [if_pos h1] at h
        cases hs : scanInner rest with
        | some g =>
            rw [hs] at h
            have hgi : (some g : Option (List Char)) = some inner := h
            obtain rfl := Option.some.inj hgi
            obtain ⟨post, hp⟩ := scanInner_some rest g hs
            exact ⟨[], post, by rw [h1, hp]; rfl⟩
        | none =>
            rw [hs] at h
            have h3 : firstBracket rest = some inner := h
            obtain ⟨pre, post, hp⟩ := firstBracket_some rest inner h3
            exact ⟨c :: pre, post, by rw [hp]; rfl⟩
      · rw [if_neg h1] at h
        obtain ⟨pre, post, hp⟩ := firstBracket_some rest inner h
        exact ⟨c :: pre, post, by rw [hp]; rfl⟩

/-- C9 counterexample: on the bracketed label chapter1 the humanizer emits
TWO spaces between the word and the digit, not one: the letter-digit rule
inserts a space and then the nondigit-digit rule fires again on the
space-digit pair it created. -/
theorem extract_chapter_title_counterexample :
    extract_chapter_title ("epubcfi(/6/16[chapter1]!/4)".toList) =
      some ("Chapter  1".toList) ∧
    some ("Chapter  1".toList) ≠ some ("Chapter 1".toList) := by
  constructor
  · decide
  · decide

/-- C9 amended: on a location whose first bracketed label is chapter1 the
humanizer yields the string Chapter, two boundary spaces, then 1 (the
letter-digit rule and the nondigit-digit rule each insert one space at the
same boundary); and it returns None when the location contains no
bracketed label, that is no decomposition around an opening bracket and a
later closing bracket. -/
theorem extract_chapter_title_behavior :
    extract_chapter_title ("epubcfi(/6/16[chapter1]!/4)".toList) =
      some ("Chapter  1".toList) ∧
    (∀ loc : List Char,
      (¬ ∃ pre mid post : List Char,
        loc = pre ++ '[' :: (mid ++ ']' :: post)) →
      extract_chapter_title loc = none) := by
  refine ⟨by decide, ?_⟩
  intro loc h
  cases hfb : firstBracket loc with
  | none =>
      unfold extract_chapter_title
      rw [hfb]
  | some inner =>
      obtain ⟨pre, post, hp⟩ := firstBracket_some loc inner hfb
      exact absurd ⟨pre, inner, post, hp⟩ h

/-- Witness for C9 at a concrete location with an unclosed bracket and
hence no bracketed label. -/
theorem extract_chapter_title_behavior_witness :
    extract_chapter_title ('a' :: '[' :: 'b' :: 'c' :: []) = none :=
  extract_chapter_title_behavior.2 ('a' :: '[' :: 'b' :: 'c' :: [])
    (by
      rintro ⟨pre, mid, post, hdec⟩
      have hm : ']' ∈ ('a' :: '[' :: 'b' :: 'c' :: ([] : List Char)) := by
        rw [hdec]
        simp
      simp at hm)

theorem dropWhile_idem (p : Char → Bool) (l : List Char) :
    (l.dropWhile p).dropWhile p = l.dropWhile p := by
  induction l with
  | nil => rfl
  | cons c r ih =>
      by_cases h : p c
      · simp [List.dropWhile_cons, h, ih]
      · simp [List.dropWhile_cons, h]

theorem dropWhile_eq_self_of_prefix (p : Char → Bool) {l u : List Char}
    (hl : l.dropWhile p = l) (hpre : u <+: l) : u.dropWhile p = u := by
  cases u with
  | nil => rfl
  | cons a u' =>
      obtain ⟨r, hr⟩ := hpre
      have ha : ¬ p a = true := by
        intro hpa
        rw [← hr] at hl
        simp only [List.cons_append] at hl
        rw [List.dropWhile_cons, if_pos hpa] at hl
        have hlelen := (List.dropWhile_suffix p (l := u' ++ r)).sublist.length_le
        have hlen := congrArg List.length hl
        simp only [List.length_cons, List.length_append] at hlen hlelen
        omega
      rw [List.dropWhile_cons, if_neg ha]

theorem pyStrip_idem (s : List Char) : pyStrip (pyStrip s) = pyStrip s := by
  have hpre : ∀ l : List Char,
      ((l.reverse.dropWhile fun c => pyIsSpace c)).reverse <+: l := by
    intro l
    have hsuf := List.dropWhile_suffix (p := fun c => pyIsSpace c) (l := l.reverse)
    have h2 := List.reverse_prefix.mpr hsuf
    simpa using h2
  unfold pyStrip
  have ht := dropWhile_idem (fun c => pyIsSpace c) s
  have hu := dropWhile_eq_self_of_prefix (fun c => pyIsSpace c) ht (hpre _)
  rw [hu, List.reverse_reverse, dropWhile_idem]

theorem stripspaces_some (s : List Char) :
    stripspaces (some s) = if s.isEmpty then some s else some (pyStrip s) := rfl

theorem stripspaces_idem (o : Option (List Char)) :
    stripspaces (stripspaces o) = stripspaces o := by
  cases o with
  | none => rfl
  | some s =>
      rw [stripspaces_some]
      by_cases h : s.isEmpty
      · rw [if_pos h, stripspaces_some, if_pos h]
      · rw [if_neg h, stripspaces_some]
        by_cases h2 : (pyStrip s).isEmpty
        · rw [if_pos h2]
        · rw [if_neg h2, pyStrip_idem]

/-- C10: construction normalizes whitespace: for every successfully
constructed annotation the stored selected_text, note and represent_text
are the corresponding inputs stripped of surrounding whitespace (for
present non-empty inputs), while location, chapter, style and
modified_date are stored exactly as given. -/
theorem create_annotation_strips_fields
    (location st note rt ch sty : Option (List Char)) (md : Int)
    (a : Annotation)
    (h : create_annotation location st note rt ch sty md = .ok a) :
    a.location = location ∧ a.chapter = ch ∧ a.style = sty ∧
    a.modified_date = md ∧
    (∀ s, st = some s → s ≠ [] → a.selected_text = some (pyStrip s)) ∧
    (∀ s, note = some s → s ≠ [] → a.note = some (pyStrip s)) ∧
    (∀ s, rt = some s → s ≠ [] → a.represent_text = some (pyStrip s)) := by
  unfold create_annotation annotationInit at h
  by_cases hv : st = none ∧ note = none
  · rw [if_pos hv] at h
    exact absurd h (by simp)
  · rw [if_neg hv] at h
    by_cases hv2 : stripspaces st = none ∧ stripspaces note = none
    · rw [if_pos hv2] at h
      exact absurd h (by simp)
    · rw [if_neg hv2] at h
      have ha := Except.ok.inj h
      subst ha
      refine ⟨rfl, rfl, rfl, rfl, ?_, ?_, ?_⟩
      · intro s hs hne
        subst hs
        show stripspaces (stripspaces (some s)) = some (pyStrip s)
        rw [stripspaces_idem, stripspaces_some,
          if_neg (by simp [List.isEmpty_iff, hne])]
      · intro s hs hne
        subst hs
        show stripspaces (stripspaces (some s)) = some (pyStrip s)
        rw [stripspaces_idem, stripspaces_some,
          if_neg (by simp [List.isEmpty_iff, hne])]
      · intro s hs hne
        subst hs
        show stripspaces (stripspaces (some s)) = some (pyStrip s)
        rw [stripspaces_idem, stripspaces_some,
          if_neg (by simp [List.isEmpty_iff, hne])]

/-- Witness for C10 at concrete inputs with surrounding whitespace. -/
theorem create_annotation_strips_fields_witness :
    (({ location := some ('L' :: []), selected_text := some ('h' :: 'i' :: []),
        represent_text := none, chapter := none, style := none,
        note := some ('n' :: []), modified_date := 5 } : Annotation)).selected_text =
      some (pyStrip (' ' :: 'h' :: 'i' :: ' ' :: [])) :=
  (create_annotation_strips_fields (some ('L' :: []))
      (some (' ' :: 'h' :: 'i' :: ' ' :: [])) (some ('n' :: [])) none none none 5
      { location := some ('L' :: []), selected_text := some ('h' :: 'i' :: []),
        represent_text := none, chapter := none, style := none,
        note := some ('n' :: []), modified_date := 5 }
      (by decide)).2.2.2.2.1 (' ' :: 'h' :: 'i' :: ' ' :: []) rfl (by decide)

theorem stripspaces_eq_none_iff (o : Option (List Char)) :
    stripspaces o = none ↔ o = none := by
  cases o with
  | none => simp [stripspaces]
  | some s =>
      rw [stripspaces_some]
      by_cases h : s.isEmpty
      · simp [h]
      · simp [h]

/-- C7 counterexample: a record with an empty-string selected_text and no
note passes the is-not-None filter, the truthiness conversion then turns
both text fields into None, and the construction ValueError escapes from
populate_annotations to its caller. -/
theorem populate_annotations_error_counterexample :
    populate_annotations
        [{ asset_id := some ('b' :: []), location := none,
           selected_text := some [], note := none, represent_text := none,
           chapter := none, style := none, modified_date := 0 }] =
      .error .valueError := by
  decide

/-- C7 amended: records with both text fields absent (None) are filtered
out before construction, but the filter only tests for None, so a record
with a present-but-empty text field can still reach the constructor and
its failure propagates; the construction failure never surfaces exactly
under the extra condition that every record passing the filter still has
a non-empty text field after truthiness conversion. -/
theorem populate_annotations_filter_safety (batch : List RawRecord)
    (h : ∀ r ∈ batch,
        r.asset_id.isSome && (r.selected_text.isSome || r.note.isSome) →
        (truthyOpt r.selected_text ≠ none ∨ truthyOpt r.note ≠ none)) :
    ∃ g, populate_annotations batch = .ok g := by
  unfold populate_annotations
  have key : ∀ (l : List RawRecord) (g : List (List Char × List Annotation)),
      (∀ r ∈ l, truthyOpt r.selected_text ≠ none ∨ truthyOpt r.note ≠ none) →
      ∃ out, buildGroups l g = .ok out := by
    intro l
    induction l with
    | nil => exact fun g _ => ⟨g, rfl⟩
    | cons r rest ih =>
        intro g hall
        have hr := hall r (List.mem_cons_self r rest)
        have hcr : ∃ a, create_annotation (truthyOpt r.location)
            (truthyOpt r.selected_text) (truthyOpt r.note)
            (truthyOpt r.represent_text) (truthyOpt r.chapter)
            (truthyOpt r.style)
            (NS_TIME_INTERVAL_SINCE_1970 + r.modified_date) = .ok a := by
          unfold create_annotation annotationInit
          rw [if_neg (by tauto)]
          rw [if_neg (by
            rw [stripspaces_eq_none_iff, stripspaces_eq_none_iff]
            tauto)]
          exact ⟨_, rfl⟩
        obtain ⟨a, ha⟩ := hcr
        have htail := ih (insertAppend g (r.asset_id.getD []) a)
          (fun x hx => hall x (List.mem_cons_of_mem r hx))
        obtain ⟨out, hout⟩ := htail
        refine ⟨out, ?_⟩
        unfold buildGroups
        rw [ha]
        exact hout
  apply key
  intro r hr
  rw [List.mem_filter] at hr
  exact h r hr.1 hr.2

/-- Witness for C7 at a concrete one-record batch with a real note. -/
theorem populate_annotations_filter_safety_witness :
    ∃ g, populate_annotations
        [{ asset_id := some ('b' :: []), location := none,
           selected_text := none, note := some ('n' :: []),
           represent_text := none, chapter := none, style := none,
           modified_date := 0 }] = .ok g :=
  populate_annotations_filter_safety
    [{ asset_id := some ('b' :: []), location := none,
       selected_text := none, note := some ('n' :: []),
       represent_text := none, chapter := none, style := none,
       modified_date := 0 }] (by decide)

/-- A concrete annotation with a missing (None) location. -/
def annNoLoc : Annotation :=
  { location := none, selected_text := none, represent_text := none,
    chapter := none, style := none, note := some ('n' :: []),
    modified_date := 0 }

/-- A second concrete annotation with a missing location, a different
note. -/
def annNoLoc2 : Annotation :=
  { location := none, selected_text := none, represent_text := none,
    chapter := none, style := none, note := some ('m' :: []),
    modified_date := 0 }

/-- A concrete annotation whose location parses to the vector [6, 2, 1]. -/
def annAt621 : Annotation :=
  { location := some ("epubcfi(/6/2,/1)".toList),
    selected_text := some ('s' :: []), represent_text := none,
    chapter := none, style := none, note := none, modified_date := 0 }

/-- A concrete annotation whose location parses to the vector [6, 4, 1]. -/
def annAt641 : Annotation :=
  { location := some ("epubcfi(/6/4,/1)".toList),
    selected_text := some ('s' :: []), represent_text := none,
    chapter := none, style := none, note := none, modified_date := 0 }

/-- C5 counterexample: a missing location yields the empty position vector,
which is not flagged: it is used as a sort key and the annotation carrying
it is ordered as the minimum of its sorted group. -/
theorem empty_vector_minimum_counterexample :
    pvec annNoLoc = [] ∧
    sortAnnotations [annAt621, annNoLoc] = [annNoLoc, annAt621] := by
  decide

/-- C5 amended: the empty position vector arises from a missing (None)
location (and from bodies with a comma but no extractable path steps); it
is not flagged as an error but is a valid sort key comparing Less than
every non-empty vector, so an annotation whose location yields the empty
vector is placed at the head of its sorted group. -/
theorem empty_vector_behavior :
    parse_epubcfi none = .ok [] ∧
    (∀ v : List Int, v ≠ [] → epubcfi_compare [] v < 0) ∧
    (∀ (l : List Annotation) (a : Annotation), a ∈ l → pvec a = [] →
      ∃ hd tl, sortAnnotations l = hd :: tl ∧ pvec hd = []) := by
  refine ⟨rfl, ?_, ?_⟩
  · intro v hv
    cases v with
    | nil => exact absurd rfl hv
    | cons x xs => simp [epubcfi_compare]; omega
  · intro l a hal hpa
    have hmem : a ∈ sortAnnotations l := by
      unfold sortAnnotations
      rw [List.mem_insertionSort]
      exact hal
    have hsorted : (sortAnnotations l).Sorted annLE :=
      List.sorted_insertionSort annLE l
    cases hs : sortAnnotations l with
    | nil =>
        rw [hs] at hmem
        exact absurd hmem (List.not_mem_nil a)
    | cons hd tl =>
        refine ⟨hd, tl, rfl, ?_⟩
        rw [hs] at hmem hsorted
        rcases List.mem_cons.mp hmem with rfl | htl
        · exact hpa
        · have hle : annLE hd a := List.rel_of_sorted_cons hsorted a htl
          have hcmp : epubcfi_compare (pvec hd) [] ≤ 0 := by
            rw [← hpa]
            exact hle
          rw [epubcfi_compare_nil_right] at hcmp
          have hlen : (pvec hd).length = 0 := by omega
          exact List.length_eq_zero.mp hlen

/-- Witness for C5 at a concrete two-element group. -/
theorem empty_vector_behavior_witness :
    epubcfi_compare [] [5] < 0 ∧
    (∃ hd tl, sortAnnotations [annAt621, annNoLoc] = hd :: tl ∧
      pvec hd = []) :=
  ⟨empty_vector_behavior.2.1 [5] (by decide),
   empty_vector_behavior.2.2 [annAt621, annNoLoc] annNoLoc (by decide)
     (by decide)⟩

/-- C6: for groups whose locations all parse, sorting by the comparator is
idempotent (a sorted group resorts to itself) and stable (two annotations
with identical position vectors keep their original relative order, as a
pair sublist). -/
theorem sortAnnotations_idempotent_stable :
    (∀ l : List Annotation, (∀ a ∈ l, (parse_epubcfi a.location).isOk) →
      sortAnnotations (sortAnnotations l) = sortAnnotations l) ∧
    (∀ (l : List Annotation) (a b : Annotation),
      (∀ x ∈ l, (parse_epubcfi x.location).isOk) →
      pvec a = pvec b → [a, b].Sublist l →
      [a, b].Sublist (sortAnnotations l)) := by
  constructor
  · intro l _
    exact List.Sorted.insertionSort_eq (List.sorted_insertionSort annLE l)
  · intro l a b _ hab hsub
    unfold sortAnnotations
    apply List.pair_sublist_insertionSort
    · show annCmp a b ≤ 0
      unfold annCmp
      rw [hab, epubcfi_compare_self]
    · exact hsub

/-- Witness for C6 at concrete groups, including an equal-key pair. -/
theorem sortAnnotations_idempotent_stable_witness :
    sortAnnotations (sortAnnotations [annAt641, annAt621]) =
      sortAnnotations [annAt641, annAt621] ∧
    [annNoLoc, annNoLoc2].Sublist
      (sortAnnotations [annNoLoc, annAt621, annNoLoc2]) :=
  ⟨sortAnnotations_idempotent_stable.1 [annAt641, annAt621] (by decide),
   sortAnnotations_idempotent_stable.2 [annNoLoc, annAt621, annNoLoc2]
     annNoLoc annNoLoc2 (by decide) (by decide) (by decide)⟩

/-- C8 counterexample: content reorders the caller's annotation list in
place: after the call on an unsorted two-element list the caller's
sequence is no longer the original. -/
theorem content_mutates_counterexample :
    (content [annAt641, annAt621] ('n' :: 'o' :: [])).2 ≠
      [annAt641, annAt621] := by
  decide

/-- C8 amended: content mutates the caller's list exactly by sorting it in
place: when every location parses, after the call the caller's sequence is
the stable sort of the original by the comparator, a permutation of the
original rather than the original itself. -/
theorem content_sorts_in_place (l : List Annotation) (t : List Char)
    (_h : ∀ a ∈ l, (parse_epubcfi a.location).isOk) :
    (content l t).2 = sortAnnotations l ∧ ((content l t).2).Perm l :=
  ⟨rfl, List.perm_insertionSort annLE l⟩

/-- Witness for C8 at a concrete unsorted list. -/
theorem content_sorts_in_place_witness :
    (content [annAt641, annAt621] ('n' :: 'o' :: [])).2 =
      sortAnnotations [annAt641, annAt621] :=
  (content_sorts_in_place [annAt641, annAt621] ('n' :: 'o' :: [])
    (by decide)).1

theorem splitOnChar_ne_nil (sep : Char) (l : List Char) :
    splitOnChar sep l ≠ [] := by
  cases l with
  | nil => simp [splitOnChar]
  | cons c rest =>
      unfold splitOnChar
      by_cases h : c = sep
      · simp [h]
      · rw [if_neg h]
        cases hsp : splitOnChar sep rest <;> simp

theorem splitOnChar_of_not_mem (sep : Char) (l : List Char)
    (h : ¬ sep ∈ l) : splitOnChar sep l = [l] := by
  induction l with
  | nil => rfl
  | cons c rest ih =>
      simp only [List.mem_cons, not_or] at h
      unfold splitOnChar
      rw [if_neg fun hc => h.1 hc.symm, ih h.2]

theorem splitOnChar_append_of_not_mem (sep : Char) (a b : List Char)
    (h : ¬ sep ∈ a) :
    ∃ g gs, splitOnChar sep b = g :: gs ∧
      splitOnChar sep (a ++ b) = (a ++ g) :: gs := by
  induction a with
  | nil =>
      cases hb : splitOnChar sep b with
      | nil => exact absurd hb (splitOnChar_ne_nil sep b)
      | cons g gs => exact ⟨g, gs, rfl, by simp [hb]⟩
  | cons c a' ih =>
      simp only [List.mem_cons, not_or] at h
      obtain ⟨g, gs, hb, hab⟩ := ih h.2
      refine ⟨g, gs, hb, ?_⟩
      rw [List.cons_append]
      unfold splitOnChar
      rw [if_neg fun hc => h.1 hc.symm, hab]
      rfl

theorem stepsAux_run_ne_nil : ∀ (t : List Char) (n : Nat),
    stepsAux (.run n) t ≠ []
  | [], n => by simp [stepsAux]
  | c :: rest, n => by
      unfold stepsAux
      by_cases h1 : c.isDigit
      · rw [if_pos h1]
        exact stepsAux_run_ne_nil rest _
      · rw [if_neg h1]
        by_cases h2 : c = '/'
        · simp [h2]
        · simp [h2]

theorem findSteps_slash_digit_ne_nil (c : Char) (t : List Char)
    (h : c.isDigit) : findSteps ('/' :: c :: t) ≠ [] := by
  have e1 : stepsAux .plain ('/' :: c :: t) = stepsAux .slash (c :: t) := by
    simp [stepsAux]
  have e2 : stepsAux .slash (c :: t) =
      stepsAux (.run (c.toNat - '0'.toNat)) t := by
    simp [stepsAux, h]
  show stepsAux .plain ('/' :: c :: t) ≠ []
  rw [e1, e2]
  exact stepsAux_run_ne_nil t _

theorem parse_epubcfi_eval (s p0 p1 : List Char) (ps' : List (List Char))
    (hsplit : splitOnChar ',' ((s.drop 8).dropLast) = p0 :: p1 :: ps') :
    parse_epubcfi (some s) =
      match splitOnChar ':' (p0 ++ p1) with
      | [] => .error .indexError
      | path :: rest =>
          match rest with
          | [] => .ok (findSteps path)
          | off :: _ =>
              match pyInt off with
              | .ok n => .ok (findSteps path ++ [n])
              | .error e => .error e := by
  simp only [parse_epubcfi]
  rw [hsplit]

/-- C4 counterexample: the code has no MalformedLocation failure path: the
prefixless malformed input x crashes with an uncaught IndexError, and so
does the grammar-conforming single-endpoint input epubcfi(/6/4:3), which
has no range comma. -/
theorem parse_epubcfi_crash_counterexample :
    parse_epubcfi (some ('x' :: [])) = .error .indexError ∧
    parse_epubcfi (some ("epubcfi(/6/4:3)".toList)) = .error .indexError := by
  constructor
  · decide
  · decide

/-- C4 amended: there is no MalformedLocation error kind: a missing (None)
location yields the empty vector; any string whose 8-and-1 sliced body
contains no comma - in particular every prefixless malformed string and
every comma-free well-formed location - crashes with an uncaught
IndexError; and when the body does split at a comma with a first piece
that starts with a path step and contains no colon, any returned vector is
non-empty. -/
theorem parse_epubcfi_error_behavior :
    (parse_epubcfi none = .ok []) ∧
    (∀ s : List Char, ¬ ',' ∈ ((s.drop 8).dropLast) →
      parse_epubcfi (some s) = .error .indexError) ∧
    (∀ (s p0 : List Char) (ps : List (List Char)) (c : Char) (t : List Char),
      splitOnChar ',' ((s.drop 8).dropLast) = p0 :: ps → ps ≠ [] →
      p0 = '/' :: c :: t → c.isDigit → ¬ ':' ∈ p0 →
      ∀ v, parse_epubcfi (some s) = .ok v → v ≠ []) := by
  refine ⟨rfl, ?_, ?_⟩
  · intro s h
    simp only [parse_epubcfi]
    rw [splitOnChar_of_not_mem ',' _ h]
  · intro s p0 ps c t hsplit hps hp0 hc hcolon v hv
    cases ps with
    | nil => exact absurd rfl hps
    | cons p1 ps' =>
        rw [parse_epubcfi_eval s p0 p1 ps' hsplit] at hv
        obtain ⟨g, gs, hb, hab⟩ :=
          splitOnChar_append_of_not_mem ':' p0 p1 hcolon
        rw [hab] at hv
        subst hp0
        have hne : findSteps (('/' :: c :: t) ++ g) ≠ [] := by
          rw [List.cons_append, List.cons_append]
          exact findSteps_slash_digit_ne_nil c (t ++ g) hc
        cases gs with
        | nil =>
            rw [← Except.ok.inj hv]
            exact hne
        | cons off gs' =>
            have hv2 : (match pyInt off with
                | .ok n =>
                    (Except.ok (findSteps (('/' :: c :: t) ++ g) ++ [n]) :
                      Except PyErr (List Int))
                | .error e => Except.error e) = .ok v := hv
            cases hpi : pyInt off with
            | ok n =>
                rw [hpi] at hv2
                rw [← Except.ok.inj hv2]
                simp
            | error e =>
                rw [hpi] at hv2
                exact Except.noConfusion hv2

/-- Witness for C4 at concrete inputs: a two-character malformed string
crashes with IndexError, and the parse of a concrete well-formed range
location is the non-empty vector [6, 2, 1]. -/
theorem parse_epubcfi_error_behavior_witness :
    parse_epubcfi (some ('a' :: 'b' :: [])) = .error .indexError ∧
    ([6, 2, 1] : List Int) ≠ [] :=
  ⟨parse_epubcfi_error_behavior.2.1 ('a' :: 'b' :: []) (by decide),
   parse_epubcfi_error_behavior.2.2 ("epubcfi(/6/2,/1)".toList)
     ('/' :: '6' :: '/' :: '2' :: []) [('/' :: '1' :: [])] '6'
     ('/' :: '2' :: []) (by decide) (by decide) (by decide) (by decide)
     (by decide) [6, 2, 1] (by decide)⟩

end Bookbits
